import Mathlib

/-!
# Verification of the Cicerone itinerary reconciliation core

This development shallowly embeds the JSON-sanitising, parsing and
state-merge logic of the Cicerone travel-planner (the `cleanJson`
helper, the `generateItinerary` / `refineItinerary` merge phases,
`recalculateDaySchedule`, `analyzeSocialContent`, and the `handleRefine`
caller) and proves or refutes the specified properties about them.

Modelling conventions:

* Strings are modelled as `List Char`; `String.prototype.trim`,
  `String.prototype.match` of the two concrete fence regexes,
  `indexOf` / `lastIndexOf`, `substring` and `replaceAll` are embedded
  as the executable functions below.
* `JSON.parse` is embedded as a fuel-driven recursive-descent parser
  `jsonParse` for the RFC 8259 grammar, producing values of the
  inductive type `JVal`.  Number tokens keep their validated lexeme
  (no floating point is computed anywhere in the code under study).
  Duplicate object keys are collapsed the way `JSON.parse` collapses
  them: the key keeps its first position and the last value.
* JavaScript objects produced by `JSON.parse` and then merged with
  `Object.assign` are embedded as records in which every field that is
  optional at runtime is an `Option`; a field that is `none` models an
  absent key, and `Object.assign target src` copies exactly the fields
  that `src` presents.
-/

/-! ## Characters, trimming, and substring search -/

/-- The characters matched by the JavaScript regex class `\s` and removed
by `String.prototype.trim`: tab through carriage return, space, NBSP,
BOM, and the Unicode space separators and line separators. -/
def jsWS (c : Char) : Bool :=
  c = ' ' || c = '\t' || c = '\n' || c = '\x0b' || c = '\x0c' || c = '\r' ||
  c = '\u00a0' || c = '\u1680' ||
  ('\u2000' ≤ c && c ≤ '\u200a') ||
  c = '\u2028' || c = '\u2029' || c = '\u202f' || c = '\u205f' ||
  c = '\u3000' || c = '\ufeff'

/-- Strip leading JS whitespace (`trimStart`). -/
def trimLeft (l : List Char) : List Char := l.dropWhile jsWS

/-- Strip trailing JS whitespace (`trimEnd`). -/
def trimRight (l : List Char) : List Char := (l.reverse.dropWhile jsWS).reverse

/-- `String.prototype.trim`. -/
def trimJs (l : List Char) : List Char := trimRight (trimLeft l)

/-- Index of the first occurrence of `pat` in `l`
(`String.prototype.indexOf` generalised to a multi-character pattern). -/
def findSub (pat : List Char) : List Char → Option Nat
  | [] => if pat = [] then some 0 else none
  | c :: rest =>
    if pat.isPrefixOf (c :: rest) then some 0
    else (findSub pat rest).map (· + 1)

/-- `String.prototype.indexOf` for a single character. -/
def firstIdxOf (c : Char) (l : List Char) : Option Nat := findSub [c] l

/-- `String.prototype.lastIndexOf` for a single character. -/
def lastIdxOf (c : Char) (l : List Char) : Option Nat :=
  (findSub [c] l.reverse).map (fun i => l.length - 1 - i)

/-- One step of `String.prototype.replaceAll pat ""`: scan left to right,
deleting non-overlapping occurrences of `pat` without rescanning the
output.  Fuel-driven; `removeAll` supplies fuel `l.length`, which covers
every step because each step consumes at least one character. -/
def removeAllAux (pat : List Char) : Nat → List Char → List Char
  | 0, l => l
  | _ + 1, [] => []
  | fuel + 1, c :: rest =>
    if pat.isPrefixOf (c :: rest) then
      removeAllAux pat fuel (rest.drop (pat.length - 1))
    else
      c :: removeAllAux pat fuel rest

/-- `String.prototype.replaceAll pat ""`. -/
def removeAll (pat : List Char) (l : List Char) : List Char :=
  removeAllAux pat l.length l

/-- The literal `` ```json `` fence marker. -/
def markJson : List Char := '`' :: '`' :: '`' :: 'j' :: 's' :: 'o' :: 'n' :: []

/-- The literal `` ``` `` fence marker. -/
def markTicks : List Char := '`' :: '`' :: '`' :: []

/-- The effect of ``text.match(/OPEN\s*([\s\S]*?)\s*```/)`` followed by
`match[1].trim()`, for `OPEN` one of the two fence markers: take the
leftmost occurrence of the opening marker that is followed by a closing
`` ``` ``; the lazily-matched group together with the two `\s*` borders
and the final `.trim()` amount to trimming the span between the end of
the opener and the first closing fence after it.  `none` when the regex
does not match. -/
def fenceInterior (marker : List Char) (text : List Char) : Option (List Char) :=
  match findSub marker text with
  | none => none
  | some s =>
    let rest := text.drop (s + marker.length)
    match findSub markTicks rest with
    | none => none
    | some j => some (trimJs (rest.take j))

/-- Fallback branch of `cleanJson`: strip stray fence markers and trim
(`text.replace(/```json/g, '').replace(/```/g, '').trim()`). -/
def stripFences (text : List Char) : List Char :=
  trimJs (removeAll markTicks (removeAll markJson text))

/-- Brace branch of `cleanJson`: the span from the first `{` to the last
`}` when the last is after the first, else the strip-and-trim fallback. -/
def braceOrStrip (text : List Char) : List Char :=
  match firstIdxOf '{' text, lastIdxOf '}' text with
  | some fb, some lb =>
    if fb < lb then (text.drop fb).take (lb + 1 - fb) else stripFences text
  | _, _ => stripFences text

/-- `cleanJson` from `src/frontend/services/geminiService.ts` (also
duplicated in `src/unnamed/part_003`): fenced block interior if a fence
matches (preferring a `` ```json `` fence), else the first-`[`-to-last-`]`
span, else the first-`{`-to-last-`}` span, else strip fence markers and
trim. -/
def cleanJson (text : List Char) : List Char :=
  match fenceInterior markJson text with
  | some r => r
  | none =>
    match fenceInterior markTicks text with
    | some r => r
    | none =>
      match firstIdxOf '[' text, lastIdxOf ']' text with
      | some fb, some lb =>
        if fb < lb then (text.drop fb).take (lb + 1 - fb) else braceOrStrip text
      | _, _ => braceOrStrip text

example :
    cleanJson ("```json\n\x7b\"a\":1\x7d\n```".toList) = "\x7b\"a\":1\x7d".toList := by
  decide

example : cleanJson ("hello [1] world".toList) = "[1]".toList := by decide

example : cleanJson ("x \x7b\"a\": 2\x7d y".toList) = "\x7b\"a\": 2\x7d".toList := by
  decide

example : cleanJson ("``` abc".toList) = "abc".toList := by decide

/-! ## JSON values and `JSON.parse` -/

/-- A parsed JSON value.  `num` keeps the validated number lexeme; the
code under study never computes with a parsed number, it only moves
values around.  `obj` keys are unique (see `jsonParse`). -/
inductive JVal where
  | null : JVal
  | bool (b : Bool) : JVal
  | num (lexeme : List Char) : JVal
  | str (s : List Char) : JVal
  | arr (items : List JVal) : JVal
  | obj (fields : List (List Char × JVal)) : JVal
  deriving Repr

/-- Property lookup on a parsed object (`value.key` in JavaScript when
`value` came out of `JSON.parse`); keys are unique, so a plain first
match suffices. -/
def jlookup (key : List Char) : List (List Char × JVal) → Option JVal
  | [] => none
  | (k, v) :: rest => if k = key then some v else jlookup key rest

/-- Property assignment on a JavaScript object: an existing key keeps its
position and takes the new value, a new key is appended. -/
def jset (key : List Char) (v : JVal) : List (List Char × JVal) → List (List Char × JVal)
  | [] => [(key, v)]
  | (k, w) :: rest => if k = key then (k, v) :: rest else (k, w) :: jset key v rest

/-- JavaScript truthiness of a parsed JSON value (`undefined` is handled
by the callers as `Option.none`). -/
def jsTruthy : JVal → Bool
  | .null => false
  | .bool b => b
  | .str s => s ≠ []
  | .num lex => !(lex.all (fun c => c = '0' || c = '-' || c = '.') &&
                  lex.any (fun c => c = '0'))
  | .arr _ => true
  | .obj _ => true

/-- JSON (RFC 8259) whitespace: the only characters `JSON.parse` skips
between tokens. -/
def jsonWS (c : Char) : Bool := c = ' ' || c = '\t' || c = '\n' || c = '\r'

/-- Skip JSON whitespace. -/
def skipWS (l : List Char) : List Char := l.dropWhile jsonWS

/-- Hexadecimal digit value, for `\uXXXX` escapes. -/
def hexDigit (c : Char) : Option Nat :=
  let n := c.toNat
  if 48 ≤ n && n ≤ 57 then some (n - 48)
  else if 97 ≤ n && n ≤ 102 then some (n - 87)
  else if 65 ≤ n && n ≤ 70 then some (n - 55)
  else none

/-- Parse the body of a JSON string after the opening quote, returning
the decoded characters and the input after the closing quote.  Raw
control characters are rejected; the eight single-character escapes and
`\uXXXX` are decoded (`Char.ofNat` stands in for UTF-16 code-unit
semantics on surrogate escapes, which the code under study never relies
on).  Fuel-driven (one unit per consumed character) so that the
definition is structurally recursive and reduces definitionally. -/
def parseStrBodyAux : Nat → List Char → Option (List Char × List Char)
  | 0, _ => none
  | _ + 1, [] => none
  | fuel + 1, c :: rest =>
    if c = '"' then some ([], rest)
    else if c = '\\' then
      match rest with
      | [] => none
      | e :: rest2 =>
        if e = '"' || e = '\\' || e = '/' then
          (parseStrBodyAux fuel rest2).map (fun p => (e :: p.1, p.2))
        else if e = 'b' then (parseStrBodyAux fuel rest2).map (fun p => ('\x08' :: p.1, p.2))
        else if e = 'f' then (parseStrBodyAux fuel rest2).map (fun p => ('\x0c' :: p.1, p.2))
        else if e = 'n' then (parseStrBodyAux fuel rest2).map (fun p => ('\n' :: p.1, p.2))
        else if e = 'r' then (parseStrBodyAux fuel rest2).map (fun p => ('\r' :: p.1, p.2))
        else if e = 't' then (parseStrBodyAux fuel rest2).map (fun p => ('\t' :: p.1, p.2))
        else if e = 'u' then
          match rest2 with
          | h1 :: h2 :: h3 :: h4 :: rest3 =>
            match hexDigit h1, hexDigit h2, hexDigit h3, hexDigit h4 with
            | some a, some b, some cc, some d =>
              (parseStrBodyAux fuel rest3).map
                (fun p => (Char.ofNat (((a * 16 + b) * 16 + cc) * 16 + d) :: p.1, p.2))
            | _, _, _, _ => none
          | _ => none
        else none
    else if c.toNat < 0x20 then none
    else (parseStrBodyAux fuel rest).map (fun p => (c :: p.1, p.2))

/-- String-body parser with enough fuel for its whole input. -/
def parseStrBody (l : List Char) : Option (List Char × List Char) :=
  parseStrBodyAux (l.length + 1) l

/-- ASCII decimal digit. -/
def isDigit (c : Char) : Bool := 48 ≤ c.toNat && c.toNat ≤ 57

/-- Parse a JSON number token starting at `l` (which must start with `-`
or a digit), returning the lexeme and the rest.  Grammar:
`-? (0 | [1-9][0-9]*) (\.[0-9]+)? ([eE][+-]?[0-9]+)?`. -/
def parseNum (l : List Char) : Option (List Char × List Char) :=
  let (sign, l1) := match l with
    | '-' :: r => (['-'], r)
    | _ => (([] : List Char), l)
  match l1 with
  | [] => none
  | d :: r =>
    if !isDigit d then none
    else
      let (intRest, afterInt) :=
        if d = '0' then (([] : List Char), r) else (r.takeWhile isDigit, r.dropWhile isDigit)
      let intPart := d :: intRest
      let (fracPart, afterFrac) :=
        match afterInt with
        | '.' :: f =>
          let ds := f.takeWhile isDigit
          if ds = [] then (none, afterInt) else (some ('.' :: ds), f.dropWhile isDigit)
        | _ => (none, afterInt)
      match fracPart, afterFrac with
      | none, '.' :: _ => none
      | _, _ =>
        let (expPart, afterExp) :=
          match afterFrac with
          | e :: t =>
            if e = 'e' || e = 'E' then
              let (sgn, t2) := match t with
                | '+' :: u => (['+'], u)
                | '-' :: u => (['-'], u)
                | _ => (([] : List Char), t)
              let ds := t2.takeWhile isDigit
              if ds = [] then (none, afterFrac) else (some (e :: (sgn ++ ds)), t2.dropWhile isDigit)
            else (none, afterFrac)
          | [] => (none, afterFrac)
        match expPart, afterExp with
        | none, e :: _ =>
          if e = 'e' || e = 'E' then none
          else some (sign ++ intPart ++ fracPart.getD [], afterExp)
        | _, _ =>
          some (sign ++ intPart ++ fracPart.getD [] ++ expPart.getD [], afterExp)

/-- Merge one parsed object member in front of the members parsed after
it, with `JSON.parse`'s duplicate-key rule: a repeated key keeps its
first position and takes the last value. -/
def jdup (key : List Char) (v : JVal) (kvs : List (List Char × JVal)) :
    List (List Char × JVal) :=
  match jlookup key kvs with
  | some w => (key, w) :: kvs.filter (fun kv => kv.1 ≠ key)
  | none => (key, v) :: kvs

/-- The literal `null`. -/
def markNull : List Char := 'n' :: 'u' :: 'l' :: 'l' :: []
/-- The literal `true`. -/
def markTrue : List Char := 't' :: 'r' :: 'u' :: 'e' :: []
/-- The literal `false`. -/
def markFalse : List Char := 'f' :: 'a' :: 'l' :: 's' :: 'e' :: []

mutual

/-- Fuel-driven JSON value parser.  Consumes leading whitespace, then one
value; returns the value and the remaining input. -/
def parseVal : Nat → List Char → Option (JVal × List Char)
  | 0, _ => none
  | fuel + 1, l =>
    let l := skipWS l
    if markNull.isPrefixOf l then some (.null, l.drop 4)
    else if markTrue.isPrefixOf l then some (.bool true, l.drop 4)
    else if markFalse.isPrefixOf l then some (.bool false, l.drop 5)
    else
      match l with
      | '"' :: rest =>
        (match parseStrBody rest with
         | none => none
         | some (s, r) => some (.str s, r))
      | '[' :: rest =>
        (match skipWS rest with
         | ']' :: rest2 => some (.arr [], rest2)
         | _ =>
           match parseItems fuel rest with
           | none => none
           | some (vs, r) => some (.arr vs, r))
      | '{' :: rest =>
        (match skipWS rest with
         | '}' :: rest2 => some (.obj [], rest2)
         | _ =>
           match parseMembers fuel rest with
           | none => none
           | some (kvs, r) => some (.obj kvs, r))
      | c :: _ =>
        if c = '-' || isDigit c then
          match parseNum l with
          | none => none
          | some (lex, r) => some (.num lex, r)
        else none
      | [] => none

/-- Parse the elements of a non-empty JSON array after the opening `[`
(or after a `,`), through the closing `]`. -/
def parseItems : Nat → List Char → Option (List JVal × List Char)
  | 0, _ => none
  | fuel + 1, l =>
    match parseVal fuel l with
    | none => none
    | some (v, r) =>
      match skipWS r with
      | ',' :: r2 =>
        (match parseItems fuel r2 with
         | none => none
         | some (vs, r3) => some (v :: vs, r3))
      | ']' :: r2 => some ([v], r2)
      | _ => none

/-- Parse the members of a non-empty JSON object after the opening `{`
(or after a `,`), through the closing `}`.  A repeated key keeps its
first position and takes the later value, as in `JSON.parse`. -/
def parseMembers : Nat → List Char → Option (List (List Char × JVal) × List Char)
  | 0, _ => none
  | fuel + 1, l =>
    match skipWS l with
    | '"' :: rest =>
      (match parseStrBody rest with
       | none => none
       | some (key, r) =>
         match skipWS r with
         | ':' :: r2 =>
           (match parseVal fuel r2 with
            | none => none
            | some (v, r3) =>
              match skipWS r3 with
              | ',' :: r4 =>
                (match parseMembers fuel r4 with
                 | none => none
                 | some (kvs, r5) => some (jdup key v kvs, r5))
              | '}' :: r4 => some ([(key, v)], r4)
              | _ => none)
         | _ => none)
    | _ => none

end

/-- `JSON.parse`: whitespace, one value, whitespace, end of input.
The fuel bound `2 * length + 4` dominates the recursion depth, which
grows by at most two per character of nesting. -/
def jsonParse (l : List Char) : Option JVal :=
  match parseVal (2 * l.length + 4) l with
  | none => none
  | some (v, rest) => if skipWS rest = [] then some v else none

example : jsonParse ("\x7b\"a\":1\x7d".toList) = some (.obj [("a".toList, .num ['1'])]) :=
  rfl

example : jsonParse (" true ".toList) = some (.bool true) := rfl
example : jsonParse ("01".toList) = none := rfl
example : jsonParse ("".toList) = none := rfl
example : jsonParse ("[1, \x7b\"k\": null\x7d, -2.5e3]".toList) =
    some (.arr [.num ['1'], .obj [("k".toList, .null)], .num ("-2.5e3".toList)]) := rfl
example : jsonParse ("\x7b\"a\":1,\"a\":2\x7d".toList) =
    some (.obj [("a".toList, .num ['2'])]) := rfl
example : (jsonParse ("[\"``` x [1] ```\"]".toList)).isSome = true := rfl
example : jsonParse ("\x7b\"a\":\x7d".toList) = none := rfl
example : jsonParse ("\"ab\\n\\u0041\"".toList) = some (.str ("ab\nA".toList)) := rfl
example : jsonParse ("1e".toList) = none := rfl
example : jsonParse ("[]".toList) = some (.arr []) := rfl
example : jsonParse ("1.".toList) = none := rfl

/-! ## The itinerary data model

Records mirror the TypeScript shapes.  The activity identifier is the
reconciliation join key and is modelled as always present (the generate
hydration step manufactures one when the model omits it); every other
activity field that can be absent on a runtime object is an `Option`,
with `none` modelling an absent key.  Number-valued fields are `Int`:
no arithmetic is ever performed on them. -/

/-- Latitude/longitude pair. -/
structure Coordinates where
  lat : Int
  lng : Int
  deriving Repr, DecidableEq

/-- Price information for an activity. -/
structure PriceDetail where
  category : String
  amount : Int
  currency : String
  bookingLink : String
  description : String
  deriving Repr, DecidableEq

/-- One scheduled unit within a day (the TypeScript `Activity`). -/
structure Activity where
  id : String
  time : Option String
  title : Option String
  description : Option String
  location : Option String
  coordinates : Option Coordinates
  type : Option String
  durationMinutes : Option Int
  estimatedCost : Option Int
  priceDetail : Option PriceDetail
  isLocked : Option Bool
  isMandatory : Option Bool
  transportToNext : Option String
  googleMapsUrl : Option String
  imageUrl : Option String
  feedback : Option String
  userNotes : Option String
  actualCost : Option Int
  selectedTransport : Option String
  deriving Repr, DecidableEq

/-- A calendar day of the plan. -/
structure DayPlan where
  date : String
  dayNumber : Int
  activities : List Activity
  deriving Repr, DecidableEq

/-- An arrival or departure leg of the trip logistics. -/
structure TransportLeg where
  type : String
  location : String
  time : String
  address : Option String
  deriving Repr, DecidableEq

/-- The accommodation entry of the trip logistics. -/
structure Accommodation where
  name : String
  address : String
  deriving Repr, DecidableEq

/-- User-supplied logistics; never produced by the completion service. -/
structure Logistics where
  arrival : TransportLeg
  departure : TransportLeg
  accommodation : Accommodation
  deriving Repr, DecidableEq

/-- A wishlist entry; `analysis` is whatever JSON the analysis call
produced (or the placeholder). -/
structure WishlistItem where
  id : String
  content : String
  type : String
  analysis : JVal
  deriving Repr

/-- The aggregate root (the TypeScript `Itinerary`). -/
structure Itinerary where
  id : String
  destination : String
  title : Option String
  totalBudget : Option Int
  currency : Option String
  days : List DayPlan
  logistics : Logistics
  wishlist : List WishlistItem
  startDate : String
  durationDays : Int
  travelers : Int
  interests : List String
  deriving Repr

/-! ## Reconciliation (the `refineItinerary` merge phase)

All variants build `oldActivityMap` (a `Map` keyed by activity id, where
a later `set` wins), then walk the candidate's days, copying user-owned
fields from the matching prior activity, with `Object.assign(act, old)`
when the prior activity is locked. -/

/-- All activities of an itinerary in traversal order
(`days.forEach(d => d.activities.forEach(...))`). -/
def allActivities (it : Itinerary) : List Activity :=
  (it.days.map DayPlan.activities).flatten

/-- `oldActivityMap.get(id)` after every prior activity was `set` in
traversal order: the last activity with the given id wins. -/
def lookupOld (prior : List Activity) (key : String) : Option Activity :=
  prior.reverse.find? (fun a => a.id = key)

/-- JavaScript truthiness of an optional boolean field
(`if (old.isLocked) ...`). -/
def optTrue (o : Option Bool) : Bool := o.getD false

/-- Overwrite-when-present: the result field is the source's when the
source presents the key, else the target's. -/
def ovw (src tgt : Option α) : Option α :=
  match src with
  | some v => some v
  | none => tgt

/-- `Object.assign(act, old)`: every field the prior activity presents
overwrites the candidate's; fields the prior activity does not present
keep the candidate's values.  The always-present id is overwritten. -/
def objectAssign (act old : Activity) : Activity where
  id := old.id
  time := ovw old.time act.time
  title := ovw old.title act.title
  description := ovw old.description act.description
  location := ovw old.location act.location
  coordinates := ovw old.coordinates act.coordinates
  type := ovw old.type act.type
  durationMinutes := ovw old.durationMinutes act.durationMinutes
  estimatedCost := ovw old.estimatedCost act.estimatedCost
  priceDetail := ovw old.priceDetail act.priceDetail
  isLocked := ovw old.isLocked act.isLocked
  isMandatory := ovw old.isMandatory act.isMandatory
  transportToNext := ovw old.transportToNext act.transportToNext
  googleMapsUrl := ovw old.googleMapsUrl act.googleMapsUrl
  imageUrl := ovw old.imageUrl act.imageUrl
  feedback := ovw old.feedback act.feedback
  userNotes := ovw old.userNotes act.userNotes
  actualCost := ovw old.actualCost act.actualCost
  selectedTransport := ovw old.selectedTransport act.selectedTransport

/-- Per-activity merge of `refineItinerary` in
`src/services/geminiService.ts` (the root app's service): copy feedback,
actual cost and notes from the matched prior activity, keep the whole
prior activity if it was locked, and default feedback/lock for a new
activity. -/
def mergeActServices (look : String → Option Activity) (act : Activity) : Activity :=
  match look act.id with
  | some old =>
    let act := { act with
      feedback := old.feedback
      actualCost := old.actualCost
      userNotes := old.userNotes }
    if optTrue old.isLocked then objectAssign act old else act
  | none => { act with feedback := some "neutral", isLocked := some false }

/-- Per-activity merge of the first `refineItinerary` in
`src/frontend/services/geminiService.ts`: also copies the selected
transport option. -/
def mergeActFrontend (look : String → Option Activity) (act : Activity) : Activity :=
  match look act.id with
  | some old =>
    let act := { act with
      feedback := old.feedback
      actualCost := old.actualCost
      userNotes := old.userNotes
      selectedTransport := old.selectedTransport }
    if optTrue old.isLocked then objectAssign act old else act
  | none => { act with feedback := some "neutral", isLocked := some false }

/-- Per-activity merge of `refineItinerary` in `src/unnamed/part_003`:
also copies the mandatory flag and the selected transport, and defaults
the mandatory flag for a new activity. -/
def mergeActPart003 (look : String → Option Activity) (act : Activity) : Activity :=
  match look act.id with
  | some old =>
    let act := { act with
      feedback := old.feedback
      actualCost := old.actualCost
      userNotes := old.userNotes
      isMandatory := old.isMandatory
      selectedTransport := old.selectedTransport }
    if optTrue old.isLocked then objectAssign act old else act
  | none =>
    { act with feedback := some "neutral", isLocked := some false,
               isMandatory := some false }

/-- Walk the candidate's days, merging each activity. -/
def mergeDays (look : String → Option Activity)
    (merge : (String → Option Activity) → Activity → Activity)
    (days : List DayPlan) : List DayPlan :=
  days.map (fun d => { d with activities := d.activities.map (merge look) })

/-- The merge phase of `refineItinerary` in
`src/services/geminiService.ts`: merge activity state, then re-attach
the prior wishlist and logistics. -/
def refineMergeServices (prev cand : Itinerary) : Itinerary :=
  let look := lookupOld (allActivities prev)
  { cand with
    days := mergeDays look mergeActServices cand.days
    wishlist := prev.wishlist
    logistics := prev.logistics }

/-- The merge phase of the first `refineItinerary` in
`src/frontend/services/geminiService.ts`: additionally persists the
trip-settings echo (start date, duration, travelers, interests). -/
def refineMergeFrontend (prev cand : Itinerary) : Itinerary :=
  let look := lookupOld (allActivities prev)
  { cand with
    days := mergeDays look mergeActFrontend cand.days
    wishlist := prev.wishlist
    logistics := prev.logistics
    startDate := prev.startDate
    durationDays := prev.durationDays
    travelers := prev.travelers
    interests := prev.interests }

/-- The merge phase of `refineItinerary` in `src/unnamed/part_003`. -/
def refineMergePart003 (prev cand : Itinerary) : Itinerary :=
  let look := lookupOld (allActivities prev)
  { cand with
    days := mergeDays look mergeActPart003 cand.days
    wishlist := prev.wishlist
    logistics := prev.logistics }

/-- `handleRefine` in the root `App` component (`src/unnamed/part_000`):
run the service's refine, then pin the returned itinerary's id back to
the current itinerary's id (`updated.id = itinerary.id`). -/
def handleRefine (current cand : Itinerary) : Itinerary :=
  { refineMergeServices current cand with id := current.id }

/-! ## `recalculateDaySchedule`

The whole body runs in a `try` whose `catch` returns the original
activity list, and a falsy response text returns it as well.  On the
success path the parsed update array is merged back by id, touching only
`time` and `transportToNext`. -/

/-- One parsed reschedule update, as the merge reads it: the `id`,
`time` and `transportToNext` properties of an element of the parsed
array.  A property that is absent or not a string is `none` (a
non-string `id` can never strict-equal an activity id; a non-string
`time`/`transportToNext` is modelled as absent, which no claim
distinguishes). -/
structure SchedUpdate where
  id : Option String
  time : Option String
  transportToNext : Option String
  deriving Repr, DecidableEq

/-- Read a string-valued property of an update element. -/
def jStrField (key : List Char) (kvs : List (List Char × JVal)) : Option String :=
  match jlookup key kvs with
  | some (.str s) => some (String.mk s)
  | _ => none

/-- Decode one element of the parsed update array.  A `null` element is
`none`: reading `.id` of `null` throws, which sends the whole call to
the fallback.  A primitive element is auto-boxed, its `.id` is
`undefined`, and it simply never matches. -/
def decodeUpdate : JVal → Option SchedUpdate
  | .null => none
  | .obj kvs =>
    some { id := jStrField ("id".toList) kvs
           time := jStrField ("time".toList) kvs
           transportToNext := jStrField ("transportToNext".toList) kvs }
  | _ => some { id := none, time := none, transportToNext := none }

/-- Decode the parsed updates.  Anything but an array means
`updatedActivities.find` throws, i.e. the fallback path. -/
def decodeUpdates : JVal → Option (List SchedUpdate)
  | .arr items => items.mapM decodeUpdate
  | _ => none

/-- The success-path merge of `recalculateDaySchedule`:
`activities.map(original => ...)`, replacing only `time` and
`transportToNext` on the first update whose id matches, and returning
the original activity unchanged when no update matches. -/
def mergeSchedule (activities : List Activity) (updates : List SchedUpdate) :
    List Activity :=
  activities.map (fun original =>
    match updates.find? (fun u => u.id = some original.id) with
    | some updated =>
      { original with time := updated.time, transportToNext := updated.transportToNext }
    | none => original)

/-- `recalculateDaySchedule` from `src/frontend/services/geminiService.ts`
(`src/unnamed/part_003` differs only in returning the list directly on a
falsy text instead of throwing into the same `catch`).  `response` is
the completion call's outcome: `.error` when the call rejects, `.ok t`
with `t` the (possibly absent) response text. -/
def recalculateDaySchedule (activities : List Activity)
    (response : Except Unit (Option String)) : List Activity :=
  match response with
  | .error _ => activities
  | .ok none => activities
  | .ok (some t) =>
    if t = "" then activities
    else
      match jsonParse (cleanJson t.toList) with
      | none => activities
      | some j =>
        match decodeUpdates j with
        | none => activities
        | some updates => mergeSchedule activities updates

/-! ## `analyzeSocialContent` -/

/-- The fixed placeholder analysis used when parsing fails. -/
def placeholderAnalysis : JVal :=
  .obj [("possibleName".toList, .str ("Unknown Spot".toList)),
        ("summary".toList, .str ("Could not analyze".toList)),
        ("tags".toList, .arr [])]

/-- `analyzeSocialContent` from `src/frontend/services/geminiService.ts`.
The completion call itself is *not* inside a `try`, so its rejection
propagates (`.error`).  When the call resolves, only the
`JSON.parse(cleanJson(text))` is guarded: an absent text (`cleanJson` of
`undefined` throws) or unparseable text leaves the placeholder in place.
`now` stands for `Date.now().toString()`. -/
def analyzeSocialContent (now content : String)
    (response : Except Unit (Option String)) : Except Unit WishlistItem :=
  match response with
  | .error e => .error e
  | .ok t =>
    let analysis :=
      match t with
      | none => placeholderAnalysis
      | some s => (jsonParse (cleanJson s.toList)).getD placeholderAnalysis
    .ok { id := now
          content := content
          type := if content.startsWith "http" then "url" else "text"
          analysis := analysis }

/-! ## The `generateItinerary` pipeline

Modelled for the first variant in
`src/frontend/services/geminiService.ts`.  The user's trip settings are
passed in already as JSON values (the embedding does not re-encode the
typed `TripInput`), and `Math.random`-generated ids come from the
injected supply `fresh`.  The returned value is the parsed JSON object
after the in-place hydration, since the cast `as Itinerary` checks
nothing.  Property assignment on a primitive or `null` target throws a
`TypeError` in strict mode, as does `.forEach` on a non-array; both are
`.error .typeError` (assignment onto a parsed *array*, which JavaScript
would tolerate, is folded into the same error case; no claim reaches
it). -/

/-- Errors of the generate/refine pipelines. -/
inductive GenErr where
  | noResponse : GenErr
  | parseFailed : GenErr
  | typeError : GenErr
  deriving Repr, DecidableEq

/-- Hydrate one activity object:
`act.feedback = 'neutral'; act.isLocked = act.isLocked || false;
act.userNotes = ''; if(!act.id) act.id = <random>`. -/
def hydrateAct (fresh : Nat → String) (n : Nat) (j : JVal) : Option (JVal × Nat) :=
  match j with
  | .obj kvs =>
    let kvs := jset ("feedback".toList) (.str ("neutral".toList)) kvs
    let lockedVal :=
      match jlookup ("isLocked".toList) kvs with
      | some v => if jsTruthy v then v else .bool false
      | none => .bool false
    let kvs := jset ("isLocked".toList) lockedVal kvs
    let kvs := jset ("userNotes".toList) (.str []) kvs
    match jlookup ("id".toList) kvs with
    | some v =>
      if jsTruthy v then some (.obj kvs, n)
      else some (.obj (jset ("id".toList) (.str (fresh n).toList) kvs), n + 1)
    | none => some (.obj (jset ("id".toList) (.str (fresh n).toList) kvs), n + 1)
  | _ => none

/-- Hydrate a day's activity list, threading the fresh-id counter. -/
def hydrateActs (fresh : Nat → String) (n : Nat) :
    List JVal → Option (List JVal × Nat)
  | [] => some ([], n)
  | a :: rest =>
    match hydrateAct fresh n a with
    | none => none
    | some (a', n') =>
      match hydrateActs fresh n' rest with
      | none => none
      | some (rest', n'') => some (a' :: rest', n'')

/-- Hydrate one day object: its `activities` property must be an array
(anything else makes `day.activities.forEach` throw). -/
def hydrateDay (fresh : Nat → String) (n : Nat) (j : JVal) : Option (JVal × Nat) :=
  match j with
  | .obj kvs =>
    match jlookup ("activities".toList) kvs with
    | some (.arr acts) =>
      (match hydrateActs fresh n acts with
       | none => none
       | some (acts', n') =>
         some (.obj (jset ("activities".toList) (.arr acts') kvs), n'))
    | _ => none
  | _ => none

/-- Hydrate the parsed `days` array. -/
def hydrateDays (fresh : Nat → String) (n : Nat) :
    List JVal → Option (List JVal × Nat)
  | [] => some ([], n)
  | d :: rest =>
    match hydrateDay fresh n d with
    | none => none
    | some (d', n') =>
      match hydrateDays fresh n' rest with
      | none => none
      | some (rest', n'') => some (d' :: rest', n'')

/-- The first `generateItinerary` of
`src/frontend/services/geminiService.ts`, from the response text on:
falsy text throws `No response text from AI`; `cleanJson` +
`JSON.parse` failure throws `Failed to parse AI response`; then the
hydration attaches logistics, an empty wishlist and the trip settings,
and — only when `data.days` is truthy — walks the days. -/
def generateItineraryFrontend (logisticsJ startDateJ durationDaysJ travelersJ
    interestsJ : JVal) (fresh : Nat → String) (text : Option String) :
    Except GenErr JVal :=
  match text with
  | none => .error .noResponse
  | some t =>
    if t = "" then .error .noResponse
    else
      match jsonParse (cleanJson t.toList) with
      | none => .error .parseFailed
      | some data =>
        match data with
        | .obj kvs =>
          let kvs := jset ("logistics".toList) logisticsJ kvs
          let kvs := jset ("wishlist".toList) (.arr []) kvs
          let kvs := jset ("startDate".toList) startDateJ kvs
          let kvs := jset ("durationDays".toList) durationDaysJ kvs
          let kvs := jset ("travelers".toList) travelersJ kvs
          let kvs := jset ("interests".toList) interestsJ kvs
          match jlookup ("days".toList) kvs with
          | none => .ok (.obj kvs)
          | some dv =>
            if jsTruthy dv then
              match dv with
              | .arr ds =>
                (match hydrateDays fresh 0 ds with
                 | none => .error .typeError
                 | some (ds', _) => .ok (.obj (jset ("days".toList) (.arr ds') kvs)))
              | _ => .error .typeError
            else .ok (.obj kvs)
        | _ => .error .typeError

/-- The response-handling front of the first `refineItinerary` of
`src/frontend/services/geminiService.ts`: falsy text and parse failure
raise exactly as in generate; a successful parse hands the value to the
merge phase (`refineMergeFrontend`), which never throws on it. -/
def refineParse (text : Option String) : Except GenErr JVal :=
  match text with
  | none => .error .noResponse
  | some t =>
    if t = "" then .error .noResponse
    else
      match jsonParse (cleanJson t.toList) with
      | none => .error .parseFailed
      | some data => .ok data

/-! ## Shared lemmas about the merge -/

/-- Flattening the merged days is mapping the per-activity merge over the
flattened activities. -/
theorem allActivities_mergeDays (look : String → Option Activity)
    (m : (String → Option Activity) → Activity → Activity) (days : List DayPlan) :
    ((mergeDays look m days).map DayPlan.activities).flatten =
      ((days.map DayPlan.activities).flatten).map (m look) := by
  induction days with
  | nil => rfl
  | cons d rest ih =>
    simp [mergeDays] at ih ⊢
    simp [ih]

/-- With pairwise-distinct activity ids, `oldActivityMap.get` finds the
activity itself. -/
theorem lookupOld_eq_some {l : List Activity} {a : Activity}
    (h : a ∈ l) (hn : (l.map Activity.id).Nodup) : lookupOld l a.id = some a := by
  unfold lookupOld
  have h' : a ∈ l.reverse := List.mem_reverse.mpr h
  have hn' : (l.reverse.map Activity.id).Nodup := by
    rw [List.map_reverse, List.nodup_reverse]
    exact hn
  have key : ∀ m : List Activity, a ∈ m → (m.map Activity.id).Nodup →
      m.find? (fun x => x.id = a.id) = some a := by
    intro m
    induction m with
    | nil => intro hm; cases hm
    | cons b t ih =>
      intro hm hnm
      simp only [List.map_cons, List.nodup_cons] at hnm
      rcases List.mem_cons.mp hm with hab | hat
      · subst hab
        simp [List.find?]
      · have hne : ¬ (b.id = a.id) := by
          intro he
          exact hnm.1 (he ▸ List.mem_map_of_mem Activity.id hat)
        simp only [List.find?, decide_eq_false hne]
        exact ih hat hnm.2
  exact key l.reverse h' hn'

/-! ## Claim theorems -/

/-- C3.  Identity preservation: for every non-null prior itinerary `P`
and candidate `C`, the itinerary returned by the app's refine flow has
id equal to `P.id`, even when `C.id` differs — `handleRefine` pins
`updated.id = itinerary.id` onto the service's merge result. -/
theorem C3_identity_preservation (P C : Itinerary) : (handleRefine P C).id = P.id := rfl

/-- C7.  Owner-field stickiness: the reconciled result's logistics and
wishlist equal the prior's, and the trip-settings echo (start date,
duration, travelers, interests) is likewise always copied forward from
the prior itinerary, overriding whatever the candidate carried. -/
theorem C7_owner_field_stickiness (P C : Itinerary) :
    (refineMergeFrontend P C).logistics = P.logistics ∧
    (refineMergeFrontend P C).wishlist = P.wishlist ∧
    (refineMergeFrontend P C).startDate = P.startDate ∧
    (refineMergeFrontend P C).durationDays = P.durationDays ∧
    (refineMergeFrontend P C).travelers = P.travelers ∧
    (refineMergeFrontend P C).interests = P.interests :=
  ⟨rfl, rfl, rfl, rfl, rfl, rfl⟩

/-- C6.  Fail-open reschedule: whenever the completion call rejects, or
its text is absent or empty, or the sanitized text does not parse as
JSON, or the parsed value is not an update array,
`recalculateDaySchedule` returns the original activity list itself. -/
theorem C6_fail_open_reschedule (activities : List Activity)
    (response : Except Unit (Option String))
    (h : response = .error () ∨ response = .ok none ∨ response = .ok (some "") ∨
      (∃ t, response = .ok (some t) ∧ jsonParse (cleanJson t.toList) = none) ∨
      (∃ t j, response = .ok (some t) ∧ jsonParse (cleanJson t.toList) = some j ∧
        decodeUpdates j = none)) :
    recalculateDaySchedule activities response = activities := by
  rcases h with h | h | h | ⟨t, ht, hp⟩ | ⟨t, j, ht, hp, hd⟩
  · subst h; rfl
  · subst h; rfl
  · subst h; rfl
  · subst ht
    unfold recalculateDaySchedule
    simp only [String.toList] at hp
    by_cases he : t = ""
    · simp [he]
    · simp [he, hp]
  · subst ht
    unfold recalculateDaySchedule
    simp only [String.toList] at hp
    by_cases he : t = ""
    · simp [he]
    · simp [he, hp, hd]

/-- A minimal all-absent activity, used by the concrete fixtures. -/
def baseAct : Activity where
  id := "a0"
  time := none
  title := none
  description := none
  location := none
  coordinates := none
  type := none
  durationMinutes := none
  estimatedCost := none
  priceDetail := none
  isLocked := none
  isMandatory := none
  transportToNext := none
  googleMapsUrl := none
  imageUrl := none
  feedback := none
  userNotes := none
  actualCost := none
  selectedTransport := none

/-- Witness for C6: a rejected completion call leaves a one-activity
list untouched. -/
theorem C6_fail_open_reschedule_witness :
    recalculateDaySchedule [baseAct] (.error ()) = [baseAct] :=
  C6_fail_open_reschedule [baseAct] (.error ()) (Or.inl rfl)

/-- C8.  Reschedule frame property: on the success path, the merged list
pairs up with the input list position by position — same id, and every
field other than `time` and `transportToNext` unchanged — and an
activity with no matching update is returned unchanged. -/
theorem C8_reschedule_frame (activities : List Activity) (updates : List SchedUpdate) :
    List.Forall₂ (fun r a =>
      r.id = a.id ∧ r.title = a.title ∧ r.description = a.description ∧
      r.location = a.location ∧ r.coordinates = a.coordinates ∧
      r.type = a.type ∧ r.durationMinutes = a.durationMinutes ∧
      r.estimatedCost = a.estimatedCost ∧ r.priceDetail = a.priceDetail ∧
      r.isLocked = a.isLocked ∧ r.isMandatory = a.isMandatory ∧
      r.googleMapsUrl = a.googleMapsUrl ∧ r.imageUrl = a.imageUrl ∧
      r.feedback = a.feedback ∧ r.userNotes = a.userNotes ∧
      r.actualCost = a.actualCost ∧ r.selectedTransport = a.selectedTransport ∧
      (updates.find? (fun u => u.id = some a.id) = none → r = a))
      (mergeSchedule activities updates) activities := by
  induction activities with
  | nil => exact List.Forall₂.nil
  | cons a rest ih =>
    refine List.Forall₂.cons ?_ ih
    cases hf : updates.find? (fun u => u.id = some a.id) with
    | none =>
      simp [mergeSchedule, hf]
    | some u =>
      simp [mergeSchedule, hf]

/-- C2 counterexample.  The claim says `analyzeExternalContent` never
rejects and converts a failing completion call into the placeholder; but
the completion call is not guarded by any `try`, so its rejection
propagates and no `WishlistItem` is produced at all. -/
theorem C2_counterexample :
    analyzeSocialContent "0" "some text" (.error ()) = .error () := rfl

/-- C2 as amended.  Whenever the completion call itself resolves,
`analyzeSocialContent` resolves to a `WishlistItem`; and if the text is
absent or its sanitized form does not parse as JSON, the item's
`analysis` is exactly the fixed placeholder
`{possibleName: "Unknown Spot", summary: "Could not analyze", tags: []}`. -/
theorem C2_amended (now content : String) (t : Option String) :
    ∃ w, analyzeSocialContent now content (.ok t) = .ok w ∧
      (t = none → w.analysis = placeholderAnalysis) ∧
      (∀ s, t = some s → jsonParse (cleanJson s.toList) = none →
        w.analysis = placeholderAnalysis) := by
  cases t with
  | none => exact ⟨_, rfl, fun _ => rfl, fun s hs => by cases hs⟩
  | some s =>
    refine ⟨_, rfl, ?_, ?_⟩
    · intro h
      cases h
    · intro s' hs hp
      cases hs
      simp only [analyzeSocialContent, String.toList] at hp ⊢
      simp [hp]

/-- Witness for C2: with unparseable text `not json`, an item is
produced and carries the placeholder analysis. -/
theorem C2_amended_witness :
    ∃ w, analyzeSocialContent "1" "hello" (.ok (some "not json")) = .ok w ∧
      w.analysis = placeholderAnalysis := by
  obtain ⟨w, hw, -, hplace⟩ := C2_amended "1" "hello" (some "not json")
  exact ⟨w, hw, hplace "not json" rfl rfl⟩

/-- Concrete prior itinerary for the C4 fixtures: no prior activities. -/
def c4Prior : Itinerary where
  id := "it1"
  destination := "Lisbon"
  title := none
  totalBudget := none
  currency := none
  days := []
  logistics :=
    ⟨⟨"flight", "LIS", "10:00", none⟩, ⟨"flight", "LIS", "18:00", none⟩,
     ⟨"Hotel", "Rua A 1"⟩⟩
  wishlist := []
  startDate := "2026-01-01"
  durationDays := 2
  travelers := 1
  interests := []

/-- Concrete candidate for the C4 fixtures: one newly introduced
activity that arrives carrying model-written notes. -/
def c4Cand : Itinerary :=
  { c4Prior with
    days := [⟨"2026-01-01", 1,
      [{ baseAct with id := "n1", userNotes := some "model note" }]⟩] }

/-- C4 counterexample.  The claim says a newly introduced activity comes
out with notes equal to the empty string; in fact the merge never
touches `userNotes` in the no-match branch, so the candidate's own notes
survive (here, non-empty model-written notes). -/
theorem C4_counterexample :
    (allActivities (refineMergePart003 c4Prior c4Cand)).map Activity.id = ["n1"] ∧
    (allActivities (refineMergePart003 c4Prior c4Cand)).map Activity.userNotes =
      [some "model note"] ∧
    some "model note" ≠ (some "" : Option String) := by
  decide

/-- C4 as amended.  An activity whose id appears in the candidate but in
no prior activity comes out of the `part_003` reconciliation with
lock=false, mandatory=false, feedback=neutral — but with `userNotes`
exactly as the candidate proposed it, not reset to the empty string. -/
theorem C4_amended (P C : Itinerary) (c : Activity)
    (hc : c ∈ allActivities C)
    (hnew : ∀ a ∈ allActivities P, a.id ≠ c.id) :
    ∃ r ∈ allActivities (refineMergePart003 P C),
      r.id = c.id ∧ r.isLocked = some false ∧ r.isMandatory = some false ∧
      r.feedback = some "neutral" ∧ r.userNotes = c.userNotes := by
  have hlook : lookupOld (allActivities P) c.id = none := by
    unfold lookupOld
    refine List.find?_eq_none.mpr ?_
    intro a ha
    simp only [decide_eq_true_eq]
    exact hnew a (List.mem_reverse.mp ha)
  have hall : allActivities (refineMergePart003 P C) =
      (allActivities C).map (mergeActPart003 (lookupOld (allActivities P))) := by
    unfold refineMergePart003 allActivities
    exact allActivities_mergeDays _ _ _
  refine ⟨mergeActPart003 (lookupOld (allActivities P)) c, ?_, ?_⟩
  · rw [hall]
    exact List.mem_map_of_mem _ hc
  · unfold mergeActPart003
    rw [hlook]
    exact ⟨rfl, rfl, rfl, rfl, rfl⟩

/-- Witness for C4: the amended statement at the concrete fixtures. -/
theorem C4_amended_witness :
    ∃ r ∈ allActivities (refineMergePart003 c4Prior c4Cand),
      r.id = "n1" ∧ r.isLocked = some false ∧ r.isMandatory = some false ∧
      r.feedback = some "neutral" ∧ r.userNotes = some "model note" := by
  have h := C4_amended c4Prior c4Cand
    { baseAct with id := "n1", userNotes := some "model note" }
    (by decide) (by decide)
  exact h

/-- Concrete prior for the C1 fixtures: one locked activity that does
not present an `imageUrl`. -/
def c1LockedAct : Activity :=
  { baseAct with
    id := "a1"
    time := some "09:00"
    title := some "Castle Tour"
    location := some "Castle"
    type := some "culture"
    durationMinutes := some 90
    isLocked := some true
    feedback := some "neutral"
    userNotes := some "wear boots"
    imageUrl := none }

/-- Concrete prior itinerary holding only `c1LockedAct`. -/
def c1Prior : Itinerary :=
  { c4Prior with id := "it2", days := [⟨"2026-01-01", 1, [c1LockedAct]⟩] }

/-- Concrete candidate for C1: same id, but the model attached an image
URL (a key the locked prior activity does not carry). -/
def c1Cand : Itinerary :=
  { c4Prior with
    id := "model-id"
    days := [⟨"2026-01-01", 1,
      [{ baseAct with
          id := "a1"
          time := some "11:30"
          title := some "Different Tour"
          imageUrl := some "http://img.example/x.jpg" }]⟩] }

/-- C1 counterexample.  The claim says the candidate's version of a
locked activity is discarded entirely in favor of a full copy of the
prior activity; but `Object.assign(act, old)` only overwrites the keys
`old` presents, so the candidate's `imageUrl` survives on the
reconciled activity even though the locked prior activity has none —
the result is not a copy of the prior activity in every field. -/
theorem C1_counterexample :
    c1LockedAct.imageUrl = none ∧ optTrue c1LockedAct.isLocked = true ∧
    ∀ r ∈ allActivities (refineMergeServices c1Prior c1Cand),
      r.id = "a1" ∧ r.imageUrl = some "http://img.example/x.jpg" ∧
      r.imageUrl ≠ c1LockedAct.imageUrl := by
  decide

/-- C1 as amended.  For a locked prior activity `a` (under the data
model's invariant that prior activity ids are pairwise distinct) and any
candidate activity `c` with the same id, the reconciled itinerary
contains an activity that keeps `a`'s value on every field `a` presents
— id, lock flag, and the unconditionally copied feedback, notes and
actual cost outright, and every remaining field through
overwrite-when-present (`ovw`): the candidate's value shows through
exactly on the fields `a` does not carry. -/
theorem C1_amended (P C : Itinerary) (a c : Activity)
    (hnodup : ((allActivities P).map Activity.id).Nodup)
    (ha : a ∈ allActivities P) (hlock : optTrue a.isLocked = true)
    (hc : c ∈ allActivities C) (hid : c.id = a.id) :
    ∃ r ∈ allActivities (refineMergeServices P C),
      r.id = a.id ∧ r.isLocked = a.isLocked ∧
      r.feedback = a.feedback ∧ r.userNotes = a.userNotes ∧
      r.actualCost = a.actualCost ∧
      r.time = ovw a.time c.time ∧ r.title = ovw a.title c.title ∧
      r.description = ovw a.description c.description ∧
      r.location = ovw a.location c.location ∧
      r.coordinates = ovw a.coordinates c.coordinates ∧
      r.type = ovw a.type c.type ∧
      r.durationMinutes = ovw a.durationMinutes c.durationMinutes ∧
      r.estimatedCost = ovw a.estimatedCost c.estimatedCost ∧
      r.priceDetail = ovw a.priceDetail c.priceDetail ∧
      r.isMandatory = ovw a.isMandatory c.isMandatory ∧
      r.transportToNext = ovw a.transportToNext c.transportToNext ∧
      r.googleMapsUrl = ovw a.googleMapsUrl c.googleMapsUrl ∧
      r.imageUrl = ovw a.imageUrl c.imageUrl ∧
      r.selectedTransport = ovw a.selectedTransport c.selectedTransport := by
  have hlook : lookupOld (allActivities P) c.id = some a := by
    rw [hid]
    exact lookupOld_eq_some ha hnodup
  have hall : allActivities (refineMergeServices P C) =
      (allActivities C).map (mergeActServices (lookupOld (allActivities P))) := by
    unfold refineMergeServices allActivities
    exact allActivities_mergeDays _ _ _
  refine ⟨mergeActServices (lookupOld (allActivities P)) c, ?_, ?_⟩
  · rw [hall]
    exact List.mem_map_of_mem _ hc
  · unfold mergeActServices
    rw [hlook]
    dsimp only
    rw [if_pos hlock]
    have hlocked : a.isLocked = some true := by
      cases hv : a.isLocked with
      | none => rw [hv] at hlock; cases hlock
      | some b =>
        rw [hv] at hlock
        simp only [optTrue, Option.getD_some] at hlock
        rw [hlock]
    refine ⟨rfl, ?_, ?_, ?_, ?_, rfl, rfl, rfl, rfl, rfl, rfl, rfl, rfl, rfl,
      rfl, rfl, rfl, rfl, rfl⟩
    · show ovw a.isLocked _ = a.isLocked
      rw [hlocked]; rfl
    · show ovw a.feedback a.feedback = a.feedback
      cases a.feedback <;> rfl
    · show ovw a.userNotes a.userNotes = a.userNotes
      cases a.userNotes <;> rfl
    · show ovw a.actualCost a.actualCost = a.actualCost
      cases a.actualCost <;> rfl

/-- Witness for C1: the amended statement at the concrete fixtures,
fully evaluated. -/
theorem C1_amended_witness :
    ∃ r ∈ allActivities (refineMergeServices c1Prior c1Cand),
      r.id = c1LockedAct.id ∧ r.isLocked = c1LockedAct.isLocked ∧
      r.feedback = c1LockedAct.feedback ∧ r.userNotes = c1LockedAct.userNotes ∧
      r.actualCost = c1LockedAct.actualCost ∧
      r.time = ovw c1LockedAct.time (some "11:30") ∧
      r.title = ovw c1LockedAct.title (some "Different Tour") ∧
      r.imageUrl = ovw c1LockedAct.imageUrl (some "http://img.example/x.jpg") := by
  obtain ⟨r, hr, h1, h2, h3, h4, h5, h6, h7, -, -, -, -, -, -, -, -, -, -, h18, -⟩ :=
    C1_amended c1Prior c1Cand c1LockedAct
      { baseAct with
        id := "a1"
        time := some "11:30"
        title := some "Different Tour"
        imageUrl := some "http://img.example/x.jpg" }
      (by decide) (by decide) (by decide) (by decide) (by decide)
  exact ⟨r, hr, h1, h2, h3, h4, h5, h6, h7, h18⟩

/-- C5 as amended.  `generateItinerary` and `refineItinerary` raise the
parse-failure error whenever the sanitized completion text is not valid
JSON (and the no-response error on empty text); but they perform no
required-field check: a missing `destination` or `days` raises nothing
(see the counterexample). -/
theorem C5_amended (lj sj dj tj ij : JVal) (fresh : Nat → String) (t : String)
    (hne : t ≠ "") (hp : jsonParse (cleanJson t.toList) = none) :
    generateItineraryFrontend lj sj dj tj ij fresh (some t) = .error .parseFailed ∧
    refineParse (some t) = .error .parseFailed := by
  simp only [String.toList] at hp
  unfold generateItineraryFrontend refineParse
  dsimp only
  rw [if_neg hne, if_neg hne]
  simp [String.toList, hp]

/-- Witness for C5: unparseable text makes both pipelines fail with the
parse error. -/
theorem C5_amended_witness :
    generateItineraryFrontend .null .null .null .null .null (fun _ => "g")
      (some "not json") = .error .parseFailed ∧
    refineParse (some "not json") = .error .parseFailed :=
  C5_amended .null .null .null .null .null (fun _ => "g") "not json"
    (by decide) rfl

/-- C5 counterexample.  The claim also requires an error whenever the
parsed value lacks `destination` or `days`; but the sanitized text
`{}` parses to an object with neither field and `generateItinerary`
returns an itinerary anyway — the hydrated object — instead of raising. -/
theorem C5_counterexample :
    jsonParse (cleanJson ("\x7b\x7d".toList)) = some (.obj []) ∧
    jlookup ("destination".toList) [] = none ∧
    jlookup ("days".toList) [] = none ∧
    (generateItineraryFrontend (.str ("L".toList)) (.str ("2026-01-01".toList))
      (.num ['2']) (.num ['1']) (.arr []) (fun _ => "g") (some "\x7b\x7d")).isOk
      = true :=
  ⟨rfl, rfl, rfl, rfl⟩

/-! ## The sanitizer specification (C9)

A second rendering of §4.1 of the specification, written from the
spec's words: "the first occurrence" is the least index produced by a
scan of all positions, and `substring(i, j+1)` is written
take-then-drop.  C9 asserts that `cleanJson` computes exactly this. -/

/-- The least index at which `pat` occurs in `t` (scan of all
positions). -/
def specFirstOcc (pat t : List Char) : Option Nat :=
  (List.range (t.length + 1)).find? (fun i => pat.isPrefixOf (t.drop i))

/-- The trimmed interior of the first fenced block opened by `marker`:
from the end of the first occurrence of the opener to the first closing
`` ``` `` after it. -/
def specFence (marker t : List Char) : Option (List Char) :=
  match specFirstOcc marker t with
  | none => none
  | some s =>
    match specFirstOcc markTicks (t.drop (s + marker.length)) with
    | none => none
    | some j => some (trimJs ((t.drop (s + marker.length)).take j))

/-- The first index of a character. -/
def specFirstIdx (c : Char) (t : List Char) : Option Nat := specFirstOcc [c] t

/-- The last index of a character: first occurrence in the reversal. -/
def specLastIdx (c : Char) (t : List Char) : Option Nat :=
  (specFirstOcc [c] t.reverse).map (fun i => t.length - 1 - i)

/-- `substring(i, j)` as take-then-drop. -/
def specSlice (t : List Char) (i j : Nat) : List Char := (t.take j).drop i

/-- Spec steps 3–4: the first-`{`-to-last-`}` span when the last is
after the first, else strip stray fence markers and trim. -/
def specBrace (t : List Char) : List Char :=
  match specFirstIdx '{' t, specLastIdx '}' t with
  | some fb, some lb => if fb < lb then specSlice t fb (lb + 1) else stripFences t
  | _, _ => stripFences t

/-- §4.1 of the spec, in priority order: fenced-block interior, else
first-`[`-to-last-`]` span, else first-`{`-to-last-`}` span, else strip
and trim. -/
def sanitizeSpec (t : List Char) : List Char :=
  match specFence markJson t with
  | some r => r
  | none =>
    match specFence markTicks t with
    | some r => r
    | none =>
      match specFirstIdx '[' t, specLastIdx ']' t with
      | some fb, some lb =>
        if fb < lb then specSlice t fb (lb + 1) else specBrace t
      | _, _ => specBrace t

/-- The recursive first-occurrence search agrees with the scan of all
positions. -/
theorem findSub_eq_specFirstOcc (pat : List Char) (l : List Char) :
    findSub pat l = specFirstOcc pat l := by
  induction l with
  | nil =>
    unfold findSub specFirstOcc
    cases pat with
    | nil => rfl
    | cons p ps => rfl
  | cons c rest ih =>
    unfold specFirstOcc at ih ⊢
    rw [show (c :: rest).length + 1 = (rest.length + 1) + 1 from rfl,
      List.range_succ_eq_map]
    by_cases hp : pat.isPrefixOf (c :: rest)
    · rw [List.find?_cons_of_pos _ (by simpa using hp)]
      unfold findSub
      rw [if_pos hp]
    · rw [List.find?_cons_of_neg _ (by simpa using hp)]
      unfold findSub
      rw [if_neg hp, List.find?_map, ih]
      rfl

/-- C9.  Sanitizer priority algorithm: for every input text, `cleanJson`
returns (1) the trimmed interior of a fenced code block if one exists,
else (2) the span from the first `[` to the last `]` if the last is
after the first, else (3) the span from the first `{` to the last `}`,
else (4) the input with stray fence markers stripped and trimmed — that
is, `cleanJson` coincides with the spec-worded `sanitizeSpec` on every
input; and on `"```json\n{\"a\":1}\n```"` it returns exactly
`{"a":1}`. -/
theorem C9_sanitizer_priority :
    (∀ t : List Char, cleanJson t = sanitizeSpec t) ∧
    cleanJson ("```json\n\x7b\"a\":1\x7d\n```".toList) = "\x7b\"a\":1\x7d".toList := by
  constructor
  · intro t
    unfold cleanJson sanitizeSpec braceOrStrip specBrace fenceInterior specFence
      firstIdxOf lastIdxOf specFirstIdx specLastIdx specSlice
    simp only [← findSub_eq_specFirstOcc, List.drop_take]
  · decide

/-! ## Sanitizer idempotence machinery (C10) -/

/-- `findSub` finds nothing exactly when the pattern is a prefix of no
suffix. -/
theorem findSub_eq_none_iff (pat : List Char) (l : List Char) :
    findSub pat l = none ↔ ∀ i, ¬ pat.isPrefixOf (l.drop i) := by
  induction l with
  | nil =>
    unfold findSub
    cases pat with
    | nil => simp [List.isPrefixOf]
    | cons p ps => simp [List.isPrefixOf]
  | cons c rest ih =>
    unfold findSub
    by_cases hp : pat.isPrefixOf (c :: rest)
    · simp only [if_pos hp]
      constructor
      · intro h; cases h
      · intro h; exact absurd hp (by simpa using h 0)
    · simp only [if_neg hp, Option.map_eq_none', ih]
      constructor
      · intro h i
        cases i with
        | zero => simpa using hp
        | succ j => simpa using h j
      · intro h j
        simpa using h (j + 1)
/-- `findSub` finds an occurrence: the pattern is a prefix of the suffix
at the reported index. -/
theorem findSub_some_hit {pat l : List Char} {i : Nat}
    (h : findSub pat l = some i) : pat.isPrefixOf (l.drop i) := by
  induction l generalizing i with
  | nil =>
    unfold findSub at h
    cases hp : decide (pat = []) with
    | true =>
      have : pat = [] := of_decide_eq_true hp
      subst this
      simp [List.isPrefixOf]
    | false =>
      rw [if_neg (of_decide_eq_false hp)] at h
      cases h
  | cons c rest ih =>
    unfold findSub at h
    by_cases hp : pat.isPrefixOf (c :: rest)
    · rw [if_pos hp] at h
      cases h
      simpa using hp
    · rw [if_neg hp] at h
      cases hj : findSub pat rest with
      | none => rw [hj] at h; cases h
      | some j =>
        rw [hj] at h
        simp only [Option.map_some'] at h
        cases h
        simpa using ih hj

/-- `findSub` reports the least occurrence. -/
theorem findSub_eq_some_min {pat l : List Char} {i : Nat}
    (h : findSub pat l = some i) : ∀ j < i, ¬ pat.isPrefixOf (l.drop j) := by
  induction l generalizing i with
  | nil =>
    unfold findSub at h
    by_cases hp : pat = []
    · rw [if_pos hp] at h
      cases h
      intro j hj
      omega
    · rw [if_neg hp] at h
      cases h
  | cons c rest ih =>
    unfold findSub at h
    by_cases hp : pat.isPrefixOf (c :: rest)
    · rw [if_pos hp] at h
      cases h
      intro j hj
      omega
    · rw [if_neg hp] at h
      cases hj : findSub pat rest with
      | none => rw [hj] at h; cases h
      | some j' =>
        rw [hj] at h
        simp only [Option.map_some'] at h
        cases h
        intro j hjlt
        cases j with
        | zero => simpa using hp
        | succ k =>
          have := ih hj k (by omega)
          simpa using this

/-- An occurrence somewhere is exactly infix-hood. -/
theorem exists_drop_hit_iff (pat l : List Char) :
    (∃ i, pat.isPrefixOf (l.drop i)) ↔ pat <:+: l := by
  constructor
  · rintro ⟨i, hi⟩
    have hpre : pat <+: l.drop i := List.isPrefixOf_iff_prefix.mp hi
    exact hpre.isInfix.trans (List.drop_suffix i l).isInfix
  · rintro ⟨s, t, rfl⟩
    refine ⟨s.length, ?_⟩
    rw [List.append_assoc, List.drop_left]
    exact List.isPrefixOf_iff_prefix.mpr ⟨t, rfl⟩

/-- No occurrence is exactly non-infix-hood. -/
theorem findSub_none_iff_no_hit (pat l : List Char) :
    findSub pat l = none ↔ ¬ (pat <:+: l) := by
  rw [findSub_eq_none_iff, ← exists_drop_hit_iff]
  push_neg
  simp
/-- No occurrence in a string means none in any infix of it. -/
theorem findSub_none_of_within {pat x y : List Char} (hinf : y <:+: x)
    (h : findSub pat x = none) : findSub pat y = none := by
  rw [findSub_none_iff_no_hit] at h ⊢
  intro hc
  exact h (hc.trans hinf)

/-- No `` ``` `` occurrence implies no `` ```json `` occurrence. -/
theorem no_markJson_of_no_ticks {x : List Char}
    (h : findSub markTicks x = none) : findSub markJson x = none := by
  rw [findSub_none_iff_no_hit] at h ⊢
  intro hc
  exact h ((List.isPrefixOf_iff_prefix.mp (by decide :
    markTicks.isPrefixOf markJson)).isInfix.trans hc)

/-- Stripping a pattern that never occurs is the identity, for any
fuel. -/
theorem removeAllAux_eq_self {pat : List Char} :
    ∀ (n : Nat) (l : List Char), findSub pat l = none → removeAllAux pat n l = l := by
  intro n
  induction n with
  | zero => intro l _; rfl
  | succ m ih =>
    intro l h
    cases l with
    | nil => rfl
    | cons c rest =>
      unfold findSub at h
      by_cases hp : pat.isPrefixOf (c :: rest)
      · rw [if_pos hp] at h; cases h
      · rw [if_neg hp] at h
        simp only [Option.map_eq_none'] at h
        unfold removeAllAux
        rw [if_neg hp, ih rest h]

/-- `replaceAll` of a pattern that never occurs is the identity. -/
theorem removeAll_eq_self {pat l : List Char} (h : findSub pat l = none) :
    removeAll pat l = l :=
  removeAllAux_eq_self l.length l h

/-- The trimmed string sits inside the original. -/
theorem trimJs_within (l : List Char) : trimJs l <:+: l := by
  unfold trimJs trimRight trimLeft
  have h1 : l.dropWhile jsWS <:+ l := List.dropWhile_suffix jsWS
  have h2 : ((l.dropWhile jsWS).reverse.dropWhile jsWS).reverse <+: l.dropWhile jsWS := by
    rw [← List.reverse_suffix]
    simpa using List.dropWhile_suffix (l := (l.dropWhile jsWS).reverse) jsWS
  exact h2.isInfix.trans h1.isInfix

/-- The head surviving `dropWhile` fails the predicate. -/
theorem dropWhile_head_false {p : Char → Bool} :
    ∀ {l c t}, List.dropWhile p l = c :: t → p c = false := by
  intro l
  induction l with
  | nil => intro c t h; cases h
  | cons x xs ih =>
    intro c t h
    rw [List.dropWhile_cons] at h
    by_cases hx : p x
    · rw [if_pos hx] at h
      exact ih h
    · rw [if_neg hx] at h
      cases h
      simpa using hx

/-- Left-trimming a left-trimmed string does nothing. -/
theorem trimLeft_trimLeft (l : List Char) : trimLeft (trimLeft l) = trimLeft l := by
  unfold trimLeft
  cases h : l.dropWhile jsWS with
  | nil => rfl
  | cons c t =>
    rw [List.dropWhile_cons, if_neg (by simp [dropWhile_head_false h])]

/-- Right-trimming a right-trimmed string does nothing. -/
theorem trimRight_trimRight (l : List Char) : trimRight (trimRight l) = trimRight l := by
  unfold trimRight
  rw [List.reverse_reverse]
  cases h : l.reverse.dropWhile jsWS with
  | nil => rfl
  | cons c t =>
    rw [List.dropWhile_cons, if_neg (by simp [dropWhile_head_false h])]

/-- A prefix of a left-trimmed string is left-trimmed. -/
theorem trimLeft_of_prefix_trimLeft {l b : List Char}
    (hb : b <+: trimLeft l) : trimLeft b = b := by
  cases hbn : b with
  | nil => rfl
  | cons c t =>
    subst hbn
    obtain ⟨r, hr⟩ := hb
    unfold trimLeft at hr ⊢
    have hc : jsWS c = false := dropWhile_head_false (l := l) (by rw [← hr]; rfl)
    rw [List.dropWhile_cons, if_neg (by simp [hc])]

/-- Trimming is idempotent. -/
theorem trimJs_trimJs (l : List Char) : trimJs (trimJs l) = trimJs l := by
  unfold trimJs
  have h1 : trimLeft (trimRight (trimLeft l)) = trimRight (trimLeft l) := by
    apply trimLeft_of_prefix_trimLeft (l := l)
    unfold trimRight
    rw [← List.reverse_suffix]
    simpa using List.dropWhile_suffix (l := (trimLeft l).reverse) jsWS
  rw [h1, trimRight_trimRight]

/-- A singleton pattern is a prefix exactly when it is the head. -/
theorem singleton_isPrefixOf_iff {c : Char} {d : List Char} :
    [c].isPrefixOf d = true ↔ d[0]? = some c := by
  cases d with
  | nil => simp [List.isPrefixOf]
  | cons a t =>
    simp only [List.isPrefixOf, List.getElem?_cons_zero, Option.some.injEq]
    constructor
    · intro h
      have := (Bool.and_eq_true _ _).mp h
      exact (beq_iff_eq.mp this.1).symm
    · intro h
      subst h
      simp [List.isPrefixOf]

/-- `indexOf` hits its character. -/
theorem firstIdxOf_get {c : Char} {l : List Char} {i : Nat}
    (h : firstIdxOf c l = some i) : l[i]? = some c := by
  have hp := findSub_some_hit h
  rw [singleton_isPrefixOf_iff] at hp
  rw [List.getElem?_drop] at hp
  simpa using hp

/-- `indexOf` reports the least hit. -/
theorem firstIdxOf_min {c : Char} {l : List Char} {i : Nat}
    (h : firstIdxOf c l = some i) : ∀ j < i, l[j]? ≠ some c := by
  intro j hj hc
  refine findSub_eq_some_min h j hj ?_
  rw [singleton_isPrefixOf_iff, List.getElem?_drop]
  simpa using hc

/-- `indexOf` succeeds on a member. -/
theorem firstIdxOf_of_mem {c : Char} {l : List Char} (h : c ∈ l) :
    ∃ i, firstIdxOf c l = some i := by
  rw [← Option.ne_none_iff_exists']
  intro hn
  rw [firstIdxOf, findSub_none_iff_no_hit] at hn
  obtain ⟨s, t, rfl⟩ := List.append_of_mem h
  exact hn ⟨s, t, by simp⟩

/-- `lastIndexOf` hits its character and nothing later does. -/
theorem lastIdxOf_get {c : Char} {l : List Char} {i : Nat}
    (h : lastIdxOf c l = some i) :
    l[i]? = some c ∧ i < l.length ∧ ∀ j, i < j → l[j]? ≠ some c := by
  unfold lastIdxOf at h
  cases hk : findSub [c] l.reverse with
  | none => rw [hk] at h; cases h
  | some k =>
    rw [hk] at h
    simp only [Option.map_some'] at h
    cases h
    have hp := findSub_some_hit hk
    rw [singleton_isPrefixOf_iff, List.getElem?_drop] at hp
    simp only [Nat.add_zero] at hp
    have hklen : k < l.length := by
      by_contra hge
      rw [List.getElem?_eq_none (by simpa using Nat.le_of_not_lt hge)] at hp
      cases hp
    have hget : l[l.length - 1 - k]? = some c := by
      rw [← List.getElem?_reverse (by simpa using hklen)]
      exact hp
    refine ⟨hget, by omega, ?_⟩
    intro j hij hc
    have hjlen : j < l.length := by
      by_contra hge
      rw [List.getElem?_eq_none (Nat.le_of_not_lt hge)] at hc
      cases hc
    have hk' : l.length - 1 - j < k := by omega
    refine findSub_eq_some_min hk _ hk' ?_
    rw [singleton_isPrefixOf_iff, List.getElem?_drop]
    simp only [Nat.add_zero]
    rw [List.getElem?_reverse (by simpa using (by omega : l.length - 1 - j < l.length))]
    rw [show l.length - 1 - (l.length - 1 - j) = j by omega]
    exact hc

/-- `lastIndexOf` succeeds on a member. -/
theorem lastIdxOf_of_mem {c : Char} {l : List Char} (h : c ∈ l) :
    ∃ i, lastIdxOf c l = some i := by
  obtain ⟨k, hk⟩ := firstIdxOf_of_mem (List.mem_reverse.mpr h)
  unfold firstIdxOf at hk
  exact ⟨l.length - 1 - k, by unfold lastIdxOf; rw [hk]; rfl⟩

/-- An opener strictly before a closer. -/
def hasSpan (o cl : Char) (x : List Char) : Prop :=
  ∃ p q : Nat, p < q ∧ x[p]? = some o ∧ x[q]? = some cl

/-- A first/last index pair in order yields a span. -/
theorem hasSpan_of_idx {o cl : Char} {x : List Char} {fb lb : Nat}
    (h1 : firstIdxOf o x = some fb) (h2 : lastIdxOf cl x = some lb)
    (h3 : fb < lb) : hasSpan o cl x :=
  ⟨fb, lb, h3, firstIdxOf_get h1, (lastIdxOf_get h2).1⟩

/-- A span yields a first/last index pair in order. -/
theorem idx_of_hasSpan {o cl : Char} {x : List Char} (h : hasSpan o cl x) :
    ∃ fb lb, firstIdxOf o x = some fb ∧ lastIdxOf cl x = some lb ∧ fb < lb := by
  obtain ⟨p, q, hpq, hp, hq⟩ := h
  obtain ⟨fb, hfb⟩ := firstIdxOf_of_mem (List.getElem?_mem hp)
  obtain ⟨lb, hlb⟩ := lastIdxOf_of_mem (List.getElem?_mem hq)
  refine ⟨fb, lb, hfb, hlb, ?_⟩
  have h1 : fb ≤ p := by
    by_contra hgt
    exact firstIdxOf_min hfb p (by omega) hp
  have h2 : q ≤ lb := by
    by_contra hgt
    exact (lastIdxOf_get hlb).2.2 q (by omega) hq
  omega

/-- Spans transfer outward along infixes. -/
theorem hasSpan_mono {o cl : Char} {x y : List Char} (hinf : y <:+: x)
    (h : hasSpan o cl y) : hasSpan o cl x := by
  obtain ⟨s, t, rfl⟩ := hinf
  obtain ⟨p, q, hpq, hp, hq⟩ := h
  have hplen : p < y.length := by
    by_contra hge
    rw [List.getElem?_eq_none (Nat.le_of_not_lt hge)] at hp
    cases hp
  have hqlen : q < y.length := by
    by_contra hge
    rw [List.getElem?_eq_none (Nat.le_of_not_lt hge)] at hq
    cases hq
  refine ⟨s.length + p, s.length + q, by omega, ?_, ?_⟩
  · rw [List.append_assoc, List.getElem?_append_right (by omega)]
    rw [show s.length + p - s.length = p by omega]
    rw [List.getElem?_append_left hplen]
    exact hp
  · rw [List.append_assoc, List.getElem?_append_right (by omega)]
    rw [show s.length + q - s.length = q by omega]
    rw [List.getElem?_append_left hqlen]
    exact hq

/-- `findSub` of a singleton at the head. -/
theorem findSub_singleton_zero {c : Char} {l : List Char} (h : l[0]? = some c) :
    findSub [c] l = some 0 := by
  cases l with
  | nil => cases h
  | cons a t =>
    unfold findSub
    rw [if_pos (by simpa using singleton_isPrefixOf_iff.mpr h)]

/-- Shape of a first-to-last slice: it sits inside the original, starts
with the opener and ends with the closer. -/
theorem slice_shape {x : List Char} {fb lb : Nat} {o cl : Char}
    (ho : x[fb]? = some o) (hcl : x[lb]? = some cl) (hlt : fb < lb)
    (hlen : lb < x.length) :
    (x.drop fb).take (lb + 1 - fb) <:+: x ∧
    ((x.drop fb).take (lb + 1 - fb)).length = lb + 1 - fb ∧
    ((x.drop fb).take (lb + 1 - fb))[0]? = some o ∧
    ((x.drop fb).take (lb + 1 - fb))[lb + 1 - fb - 1]? = some cl := by
  refine ⟨?_, ?_, ?_, ?_⟩
  · exact (List.take_prefix _ _).isInfix.trans (List.drop_suffix fb x).isInfix
  · rw [List.length_take, List.length_drop]
    omega
  · rw [List.getElem?_take, if_pos (by omega), List.getElem?_drop]
    simpa using ho
  · rw [List.getElem?_take, if_pos (by omega), List.getElem?_drop]
    rw [show fb + (lb + 1 - fb - 1) = lb by omega]
    exact hcl

/-- First and last index of a slice that starts with the opener and ends
with the closer. -/
theorem slice_idx {y : List Char} {o cl : Char} (hne : 2 ≤ y.length)
    (h0 : y[0]? = some o) (hl : y[y.length - 1]? = some cl) :
    firstIdxOf o y = some 0 ∧ lastIdxOf cl y = some (y.length - 1) := by
  constructor
  · exact findSub_singleton_zero h0
  · unfold lastIdxOf
    have hrev : y.reverse[0]? = some cl := by
      rw [List.getElem?_reverse (by omega)]
      exact hl
    rw [findSub_singleton_zero hrev]
    rfl

/-- A slice delimited by its own endpoints is returned whole by the
bracket branch arithmetic. -/
theorem slice_self {y : List Char} (hne : 1 ≤ y.length) :
    (y.drop 0).take (y.length - 1 + 1 - 0) = y := by
  rw [List.drop_zero, show y.length - 1 + 1 - 0 = y.length by omega, List.take_length]

/-- A first-`[`-to-last-`]` slice of a fence-free text is a `cleanJson`
fixed point. -/
theorem cleanJson_fix_bracketSlice {x : List Char} {fb lb : Nat}
    (hticks : findSub markTicks x = none)
    (hfb : firstIdxOf '[' x = some fb) (hlb : lastIdxOf ']' x = some lb)
    (hlt : fb < lb) :
    cleanJson ((x.drop fb).take (lb + 1 - fb)) = (x.drop fb).take (lb + 1 - fb) := by
  obtain ⟨hinf, hlen, h0, hlast⟩ :=
    slice_shape (firstIdxOf_get hfb) (lastIdxOf_get hlb).1 hlt (lastIdxOf_get hlb).2.1
  set y := (x.drop fb).take (lb + 1 - fb) with hy
  have hyticks : findSub markTicks y = none := findSub_none_of_within hinf hticks
  have hyjson : findSub markJson y = none := no_markJson_of_no_ticks hyticks
  have hlen2 : 2 ≤ y.length := by omega
  obtain ⟨hi1, hi2⟩ := slice_idx hlen2 h0 (by rw [hlen]; simpa [hlen] using hlast)
  unfold cleanJson fenceInterior
  rw [hyjson, hyticks, hi1, hi2]
  dsimp only
  rw [if_pos (by omega)]
  exact slice_self (by omega)

/-- A first-`{`-to-last-`}` slice of a fence-free text with no
bracket span is a `cleanJson` fixed point. -/
theorem cleanJson_fix_braceSlice {x : List Char} {fb lb : Nat}
    (hticks : findSub markTicks x = none)
    (hnoBrk : ¬ hasSpan '[' ']' x)
    (hfb : firstIdxOf '{' x = some fb) (hlb : lastIdxOf '}' x = some lb)
    (hlt : fb < lb) :
    cleanJson ((x.drop fb).take (lb + 1 - fb)) = (x.drop fb).take (lb + 1 - fb) := by
  obtain ⟨hinf, hlen, h0, hlast⟩ :=
    slice_shape (firstIdxOf_get hfb) (lastIdxOf_get hlb).1 hlt (lastIdxOf_get hlb).2.1
  set y := (x.drop fb).take (lb + 1 - fb) with hy
  have hyticks : findSub markTicks y = none := findSub_none_of_within hinf hticks
  have hyjson : findSub markJson y = none := no_markJson_of_no_ticks hyticks
  have hlen2 : 2 ≤ y.length := by omega
  obtain ⟨hi1, hi2⟩ := slice_idx hlen2 h0 (by rw [hlen]; simpa [hlen] using hlast)
  have hynoBrk : ¬ hasSpan '[' ']' y := fun hsp => hnoBrk (hasSpan_mono hinf hsp)
  unfold cleanJson fenceInterior
  rw [hyjson, hyticks]
  dsimp only
  have hbrk : ∀ r, (match firstIdxOf '[' y, lastIdxOf ']' y with
      | some fb', some lb' =>
        if fb' < lb' then (y.drop fb').take (lb' + 1 - fb') else r
      | _, _ => r) = r := by
    intro r
    rcases h1 : firstIdxOf '[' y with _ | fb'
    · rcases h2 : lastIdxOf ']' y with _ | lb' <;> rfl
    · rcases h2 : lastIdxOf ']' y with _ | lb'
      · rfl
      · have : ¬ fb' < lb' := fun hlt' => hynoBrk (hasSpan_of_idx h1 h2 hlt')
        simp only [if_neg this]
  rw [hbrk]
  unfold braceOrStrip
  rw [hi1, hi2]
  dsimp only
  rw [if_pos (by omega)]
  exact slice_self (by omega)

/-- The strip-and-trim fallback on a fence-free text with no bracket
and no brace span is a `cleanJson` fixed point. -/
theorem cleanJson_fix_strip {x : List Char}
    (hticks : findSub markTicks x = none)
    (hnoBrk : ¬ hasSpan '[' ']' x) (hnoBrc : ¬ hasSpan '{' '}' x) :
    cleanJson (stripFences x) = stripFences x := by
  have hjson : findSub markJson x = none := no_markJson_of_no_ticks hticks
  have hstrip : stripFences x = trimJs x := by
    unfold stripFences
    rw [removeAll_eq_self hjson, removeAll_eq_self hticks]
  rw [hstrip]
  have hinf : trimJs x <:+: x := trimJs_within x
  set y := trimJs x with hy
  have hyticks : findSub markTicks y = none := findSub_none_of_within hinf hticks
  have hyjson : findSub markJson y = none := no_markJson_of_no_ticks hyticks
  have hynoBrk : ¬ hasSpan '[' ']' y := fun hsp => hnoBrk (hasSpan_mono hinf hsp)
  have hynoBrc : ¬ hasSpan '{' '}' y := fun hsp => hnoBrc (hasSpan_mono hinf hsp)
  unfold cleanJson fenceInterior
  rw [hyjson, hyticks]
  dsimp only
  have hbrk : ∀ r, (match firstIdxOf '[' y, lastIdxOf ']' y with
      | some fb', some lb' =>
        if fb' < lb' then (y.drop fb').take (lb' + 1 - fb') else r
      | _, _ => r) = r := by
    intro r
    rcases h1 : firstIdxOf '[' y with _ | fb'
    · rcases h2 : lastIdxOf ']' y with _ | lb' <;> rfl
    · rcases h2 : lastIdxOf ']' y with _ | lb'
      · rfl
      · have : ¬ fb' < lb' := fun hlt' => hynoBrk (hasSpan_of_idx h1 h2 hlt')
        simp only [if_neg this]
  rw [hbrk]
  unfold braceOrStrip
  have hbrc : ∀ r, (match firstIdxOf '{' y, lastIdxOf '}' y with
      | some fb', some lb' =>
        if fb' < lb' then (y.drop fb').take (lb' + 1 - fb') else r
      | _, _ => r) = r := by
    intro r
    rcases h1 : firstIdxOf '{' y with _ | fb'
    · rcases h2 : lastIdxOf '}' y with _ | lb' <;> rfl
    · rcases h2 : lastIdxOf '}' y with _ | lb'
      · rfl
      · have : ¬ fb' < lb' := fun hlt' => hynoBrc (hasSpan_of_idx h1 h2 hlt')
        simp only [if_neg this]
  rw [hbrc]
  unfold stripFences
  rw [removeAll_eq_self hyjson, removeAll_eq_self hyticks, hy, trimJs_trimJs]

/-- No span when the opener never occurs. -/
theorem noSpan_of_first_none {o cl : Char} {x : List Char}
    (h : firstIdxOf o x = none) : ¬ hasSpan o cl x := by
  intro hs
  obtain ⟨fb, lb, h1, _, _⟩ := idx_of_hasSpan hs
  rw [h] at h1
  cases h1

/-- No span when the closer never occurs. -/
theorem noSpan_of_last_none {o cl : Char} {x : List Char}
    (h : lastIdxOf cl x = none) : ¬ hasSpan o cl x := by
  intro hs
  obtain ⟨fb, lb, _, h2, _⟩ := idx_of_hasSpan hs
  rw [h] at h2
  cases h2

/-- No span when the last closer is not after the first opener. -/
theorem noSpan_of_not_lt {o cl : Char} {x : List Char} {fb lb : Nat}
    (h1 : firstIdxOf o x = some fb) (h2 : lastIdxOf cl x = some lb)
    (h : ¬ fb < lb) : ¬ hasSpan o cl x := by
  intro hs
  obtain ⟨fb', lb', h1', h2', hlt'⟩ := idx_of_hasSpan hs
  rw [h1] at h1'
  rw [h2] at h2'
  cases h1'
  cases h2'
  exact h hlt'

/-- The brace-or-strip fallback of a fence-free text with no bracket
span is a `cleanJson` fixed point. -/
theorem cleanJson_fix_braceOrStrip {x : List Char}
    (hticks : findSub markTicks x = none)
    (hnoBrk : ¬ hasSpan '[' ']' x) :
    cleanJson (braceOrStrip x) = braceOrStrip x := by
  unfold braceOrStrip
  rcases h3 : firstIdxOf '{' x with _ | fb <;> rcases h4 : lastIdxOf '}' x with _ | lb
  · exact cleanJson_fix_strip hticks hnoBrk (noSpan_of_first_none h3)
  · exact cleanJson_fix_strip hticks hnoBrk (noSpan_of_first_none h3)
  · exact cleanJson_fix_strip hticks hnoBrk (noSpan_of_last_none h4)
  · dsimp only
    by_cases hlt : fb < lb
    · rw [if_pos hlt]
      exact cleanJson_fix_braceSlice hticks hnoBrk h3 h4 hlt
    · rw [if_neg hlt]
      exact cleanJson_fix_strip hticks hnoBrk (noSpan_of_not_lt h3 h4 hlt)

/-- `cleanJson` is idempotent on every input in which the fence marker
`` ``` `` never occurs (in particular the fence regexes cannot match). -/
theorem cleanJson_idem_of_no_ticks (x : List Char)
    (hticks : findSub markTicks x = none) :
    cleanJson (cleanJson x) = cleanJson x := by
  have hjson : findSub markJson x = none := no_markJson_of_no_ticks hticks
  have hfj : fenceInterior markJson x = none := by unfold fenceInterior; rw [hjson]
  have hft : fenceInterior markTicks x = none := by unfold fenceInterior; rw [hticks]
  have hx : cleanJson x = (match firstIdxOf '[' x, lastIdxOf ']' x with
      | some fb, some lb =>
        if fb < lb then (x.drop fb).take (lb + 1 - fb) else braceOrStrip x
      | _, _ => braceOrStrip x) := by
    unfold cleanJson
    rw [hfj, hft]
  rw [hx]
  rcases h1 : firstIdxOf '[' x with _ | fb <;> rcases h2 : lastIdxOf ']' x with _ | lb
  · exact cleanJson_fix_braceOrStrip hticks (noSpan_of_first_none h1)
  · exact cleanJson_fix_braceOrStrip hticks (noSpan_of_first_none h1)
  · exact cleanJson_fix_braceOrStrip hticks (noSpan_of_last_none h2)
  · dsimp only
    by_cases hlt : fb < lb
    · rw [if_pos hlt]
      exact cleanJson_fix_bracketSlice hticks h1 h2 hlt
    · rw [if_neg hlt]
      exact cleanJson_fix_braceOrStrip hticks (noSpan_of_not_lt h1 h2 hlt)

/-- C10 counterexample.  The claim asserts idempotence for every valid
JSON document; but a valid JSON document may carry a markdown fence
inside a string literal, and then the first `sanitize` extracts the
fence interior while the second extracts a bracket span from it:
`["``` x [1] ```"]` is valid JSON, `sanitize` maps it to `x [1]`, and a
second `sanitize` maps that to `[1]` — not a fixed point. -/
theorem C10_counterexample :
    (jsonParse ("[\"``` x [1] ```\"]".toList)).isSome = true ∧
    cleanJson ("[\"``` x [1] ```\"]".toList) = "x [1]".toList ∧
    cleanJson (cleanJson ("[\"``` x [1] ```\"]".toList)) = "[1]".toList ∧
    cleanJson (cleanJson ("[\"``` x [1] ```\"]".toList)) ≠
      cleanJson ("[\"``` x [1] ```\"]".toList) :=
  ⟨rfl, rfl, rfl, by decide⟩

/-- C10 as amended.  For every string that is a valid JSON document and
contains no `` ``` `` fence marker, `sanitize (sanitize x) =
sanitize x`. -/
theorem C10_sanitizer_idempotence (x : List Char)
    (_hvalid : (jsonParse x).isSome = true)
    (hticks : findSub markTicks x = none) :
    cleanJson (cleanJson x) = cleanJson x :=
  cleanJson_idem_of_no_ticks x hticks

/-- Witness for C10: a clean JSON object document is sanitized
idempotently. -/
theorem C10_sanitizer_idempotence_witness :
    cleanJson (cleanJson ("\x7b\"a\":1\x7d".toList)) =
      cleanJson ("\x7b\"a\":1\x7d".toList) :=
  C10_sanitizer_idempotence ("\x7b\"a\":1\x7d".toList) rfl rfl
